import Mathlib

/-!
Shallow embedding of the `api_fuwapachi` message service (Go).

The embedding covers:
* the `messages` store (rows with `id`, `content`, `created_at`, nullable
  `deleted_at`) together with the MySQL `AUTO_INCREMENT` id counter;
* the mutation handlers `CreateMessage` and `DeleteMessage`
  (`internal/handler/message.go`);
* the list handler `GetMessages` with its Origin/Referer validation
  (`internal/handler/message.go`);
* the WebSocket origin check `createUpgrader`, the registration performed by
  `HandleWebSocket`, and the fan-out step of `HandleBroadcast`
  (`internal/handler/websocket.go`).

Timestamps (`time.Now()`) are modelled as natural numbers supplied by the
caller; real time is monotone, which appears as monotonicity hypotheses on
operation traces.  The database is modelled as a list of rows; each handler
is a pure function from the request data and the current store to the new
store, the HTTP-level response, and (for delete) the ordered list of effects
it performs.
-/

namespace Fuwapachi

/-- A row of the `messages` table / the JSON message object
(`internal/model/message.go`, struct `Message`). -/
structure Message where
  id : String
  content : String
  createdAt : Nat
  deletedAt : Option Nat
deriving DecidableEq, Repr

/-- The WebSocket delete notification
(`internal/model/message.go`, struct `DeleteEventMessage`). -/
structure DeleteEventMessage where
  type : String
  id : String
  deletedAt : Nat
deriving DecidableEq, Repr

/-- The `messages` table plus its `AUTO_INCREMENT` counter.  `nextId` is the
integer the database will assign to the next inserted row
(`LastInsertId` in `CreateMessage`). -/
structure Store where
  rows : List Message
  nextId : Nat
deriving DecidableEq, Repr

/-- The empty database; MySQL `AUTO_INCREMENT` starts at 1. -/
def Store.empty : Store := ⟨[], 1⟩

/-! ## Injectivity of the decimal rendering `Nat.repr`

`CreateMessage` stores the auto-increment id rendered with
`fmt.Sprintf("%d", lastInsertID)`; in the embedding this is `Nat.repr`.
Distinct counters yield distinct id strings, which we prove via a
decimal-value round trip. -/

/-- Numeric value of a decimal digit character. -/
def digitVal (c : Char) : Nat := c.toNat - '0'.toNat

/-- Value of a decimal digit string, most significant digit first. -/
def valOfDigits (l : List Char) : Nat := l.foldl (fun a c => 10 * a + digitVal c) 0

theorem foldl_digits_eq (l : List Char) :
    ∀ v : Nat, l.foldl (fun a c => 10 * a + digitVal c) v
      = v * 10 ^ l.length + valOfDigits l := by
  induction l with
  | nil => intro v; simp [valOfDigits]
  | cons c l ih =>
    intro v
    simp only [List.foldl_cons, List.length_cons, valOfDigits]
    rw [ih (10 * v + digitVal c), ih (10 * 0 + digitVal c)]
    ring

theorem digitVal_digitChar : ∀ d : Fin 10, digitVal (Nat.digitChar d.val) = d.val := by
  decide

theorem valOfDigits_toDigitsCore :
    ∀ (fuel n : Nat) (acc : List Char), n < 10 ^ fuel →
      valOfDigits (Nat.toDigitsCore 10 fuel n acc)
        = n * 10 ^ acc.length + valOfDigits acc := by
  intro fuel
  induction fuel with
  | zero =>
    intro n acc h
    have hn : n = 0 := by simp at h; omega
    subst hn
    simp [Nat.toDigitsCore]
  | succ fuel ih =>
    intro n acc h
    simp only [Nat.toDigitsCore]
    by_cases hdiv : n / 10 = 0
    · rw [if_pos hdiv]
      have hn10 : n < 10 := by omega
      have hmod : n % 10 = n := Nat.mod_eq_of_lt hn10
      have hd : digitVal (Nat.digitChar (n % 10)) = n % 10 :=
        digitVal_digitChar ⟨n % 10, Nat.mod_lt _ (by omega)⟩
      rw [valOfDigits, List.foldl_cons, foldl_digits_eq, hd, hmod]
      ring
    · rw [if_neg hdiv]
      have hlt : n / 10 < 10 ^ fuel :=
        Nat.div_lt_of_lt_mul (by have hp := Nat.pow_succ 10 fuel; omega)
      rw [ih (n / 10) (Nat.digitChar (n % 10) :: acc) hlt]
      have hd : digitVal (Nat.digitChar (n % 10)) = n % 10 :=
        digitVal_digitChar ⟨n % 10, Nat.mod_lt _ (by omega)⟩
      rw [valOfDigits, List.foldl_cons, foldl_digits_eq, hd]
      simp only [List.length_cons]
      conv_rhs => rw [← Nat.div_add_mod n 10]
      rw [Nat.pow_succ]
      ring

theorem valOfDigits_toDigits (n : Nat) : valOfDigits (Nat.toDigits 10 n) = n := by
  have h : n < 10 ^ (n + 1) := by
    calc n < n + 1 := Nat.lt_succ_self n
    _ ≤ 10 ^ (n + 1) := Nat.le_of_lt (Nat.lt_pow_self (by omega) (n + 1))
  have := valOfDigits_toDigitsCore (n + 1) n [] h
  rw [Nat.toDigits]
  simpa [valOfDigits] using this

theorem repr_injective : Function.Injective Nat.repr := by
  intro a b hab
  have h : Nat.toDigits 10 a = Nat.toDigits 10 b := by
    have := congrArg String.data hab
    simpa [Nat.repr, List.asString] using this
  have := congrArg valOfDigits h
  rwa [valOfDigits_toDigits, valOfDigits_toDigits] at this

/-! ## `CreateMessage` (POST /messages)

`internal/handler/message.go`, lines 17–73.  The handler
1. wraps the body in `http.MaxBytesReader(w, r.Body, 1<<20)`, so decoding a
   body larger than 1 MiB fails;
2. JSON-decodes the body into a `Message` (failure → 400 "Invalid request
   body");
3. rejects empty `Content` (400 "content is required");
4. overwrites `CreatedAt := time.Now()` and `DeletedAt := nil`, inserts the
   row letting the database assign the `AUTO_INCREMENT` id, and answers 201
   with the stored message whose `ID` is `Sprintf("%d", lastInsertID)`.

The JSON decoding itself is external (`encoding/json`); the embedding takes
the decode result as `body : Option Message` (with `none` for a parse
failure) together with the byte size of the request body. -/

/-- Validation failures of `CreateMessage` (the two 400 branches). -/
inductive CreateErr
  | invalidBody
  | contentRequired
deriving DecidableEq, Repr

/-- Result of one `CreateMessage` call: the store afterwards and the HTTP
response (201 with the created message, or a 400 validation error). -/
structure CreateOut where
  store : Store
  response : Except CreateErr Message
deriving Repr

/-- `http.MaxBytesReader(w, r.Body, 1<<20)`: the body-size ceiling. -/
def maxBodyBytes : Nat := 1 <<< 20

/-- Shallow embedding of `Handler.CreateMessage`.  `now` is `time.Now()`,
`bodySize` the request body's byte length, `body` the JSON decode result of
the (single-value) body. -/
def createMessage (s : Store) (now : Nat) (bodySize : Nat)
    (body : Option Message) : CreateOut :=
  -- decoding through MaxBytesReader fails once the value exceeds the limit
  let decoded := if bodySize > maxBodyBytes then none else body
  match decoded with
  | none => ⟨s, .error .invalidBody⟩
  | some msg =>
    if msg.content = "" then ⟨s, .error .contentRequired⟩
    else
      let row : Message :=
        { id := Nat.repr s.nextId, content := msg.content,
          createdAt := now, deletedAt := none }
      ⟨⟨s.rows ++ [row], s.nextId + 1⟩, .ok row⟩

/-! ## `DeleteMessage` (DELETE /messages/{id})

`internal/handler/message.go`, lines 174–219.  The handler
1. runs `SELECT EXISTS(SELECT 1 FROM messages WHERE id = ? AND deleted_at IS
   NULL)`; if no active row exists it answers 404 "Message not found";
2. otherwise runs `UPDATE messages SET deleted_at = ? WHERE id = ?` with
   `now := time.Now()`, and only after that write sends
   `DeleteEventMessage{Type: "message_deleted", ID: id, DeletedAt: now}` into
   the broadcast channel, answering 204.

The ordered `effects` list records the store write and the enqueue in the
order the handler performs them. -/

/-- The 404 branch of `DeleteMessage`. -/
inductive DeleteErr
  | notFound
deriving DecidableEq, Repr

/-- Observable side effects of `DeleteMessage`, in program order. -/
inductive Effect
  | storeWrite (id : String) (deletedAt : Nat)
  | enqueue (ev : DeleteEventMessage)
deriving DecidableEq, Repr

/-- Result of one `DeleteMessage` call. -/
structure DeleteOut where
  store : Store
  response : Except DeleteErr Unit
  effects : List Effect
deriving Repr

/-- `SELECT EXISTS(SELECT 1 FROM messages WHERE id = ? AND deleted_at IS NULL)`. -/
def existsActive (s : Store) (id : String) : Bool :=
  s.rows.any (fun m => m.id = id && m.deletedAt.isNone)

/-- `UPDATE messages SET deleted_at = ? WHERE id = ?`. -/
def updateDeletedAt (rows : List Message) (id : String) (now : Nat) : List Message :=
  rows.map (fun m => if m.id = id then { m with deletedAt := some now } else m)

/-- Shallow embedding of `Handler.DeleteMessage`. -/
def deleteMessage (s : Store) (id : String) (now : Nat) : DeleteOut :=
  if existsActive s id then
    let ev : DeleteEventMessage := ⟨"message_deleted", id, now⟩
    ⟨⟨updateDeletedAt s.rows id now, s.nextId⟩, .ok (),
      [.storeWrite id now, .enqueue ev]⟩
  else
    ⟨s, .error .notFound, []⟩

/-! ## `GetMessages` (GET /messages)

`internal/handler/message.go`, lines 75–171.  The handler
1. reads the `Origin` header; if nonempty it must pass `isOriginAllowed`,
   else 403;
2. if `Origin` is empty, it reads the `Referer` header; an empty Referer is
   403; the Referer is parsed with `url.Parse` and rejected when parsing
   fails or scheme/host is empty; otherwise `scheme://host` must pass
   `isOriginAllowed`, else 403;
3. only then queries
   `SELECT id, content, created_at FROM messages WHERE deleted_at IS NULL
    ORDER BY RAND() LIMIT 10`.

`url.Parse` is external (`net/url`); the embedding takes its outcome as
`parsedReferer : Option URL` (`none` for a parse error).  `ORDER BY RAND()`
is modelled by a caller-supplied list `sample` which theorems constrain to
be a permutation of the active rows. -/

/-- `maxMessagesPerRequest` — at most this many records per GET. -/
def maxMessagesPerRequest : Nat := 10

/-- `Handler.isOriginAllowed`: linear scan for an exact string match. -/
def isOriginAllowed (allowedOrigins : List String) (origin : String) : Bool :=
  allowedOrigins.any (fun allowed => origin = allowed)

/-- Outcome of `url.Parse` as far as the handler inspects it. -/
structure URL where
  scheme : String
  host : String
deriving DecidableEq, Repr

/-- Result of one `GetMessages` call: the HTTP response and whether the
database was queried. -/
structure GetOut where
  response : Except String (List Message)
  queried : Bool
deriving Repr

/-- The rows of `s` with `deleted_at IS NULL`. -/
def activeRows (s : Store) : List Message :=
  s.rows.filter (fun m => m.deletedAt.isNone)

/-- The row set produced by scanning the `SELECT id, content, created_at`
result: `deleted_at` is not selected, so the scanned message has it absent. -/
def listSelect (sample : List Message) : List Message :=
  (sample.take maxMessagesPerRequest).map
    (fun m => { id := m.id, content := m.content,
                createdAt := m.createdAt, deletedAt := none })

/-- Shallow embedding of `Handler.GetMessages`. -/
def getMessages (allowedOrigins : List String) (origin referer : String)
    (parsedReferer : Option URL) (sample : List Message) : GetOut :=
  if origin ≠ "" then
    if isOriginAllowed allowedOrigins origin then
      ⟨.ok (listSelect sample), true⟩
    else ⟨.error "Forbidden", false⟩
  else if referer = "" then ⟨.error "Forbidden", false⟩
  else
    match parsedReferer with
    | none => ⟨.error "Forbidden", false⟩
    | some u =>
      if u.scheme = "" || u.host = "" then ⟨.error "Forbidden", false⟩
      else if isOriginAllowed allowedOrigins (u.scheme ++ "://" ++ u.host) then
        ⟨.ok (listSelect sample), true⟩
      else ⟨.error "Forbidden", false⟩

/-! ## WebSocket subscription and broadcast

`internal/handler/websocket.go`.  `createUpgrader` builds a Go map from each
allowed origin to `true` and checks `allowedMap[origin]` (zero value `false`
when absent).  `HandleWebSocket` registers the connection in `h.Clients`
only after a successful upgrade; a refused origin never reaches the
registry.  `HandleBroadcast` snapshots the registry under a read lock, then
writes the event to every member of the snapshot; a failed write closes and
deregisters only that connection and the loop continues with the rest.
Connections are modelled by their identities (`Nat`), the `Clients` map by
the list of its keys. -/

/-- The `CheckOrigin` closure produced by `createUpgrader`: build the map
from allowed origins to `true`, then index it with the request's `Origin`
header (absent key → Go's zero value `false`). -/
def checkOrigin (allowedOrigins : List String) (origin : String) : Bool :=
  let allowedMap := allowedOrigins.foldl
    (fun m o => (o, true) :: m) ([] : List (String × Bool))
  (allowedMap.lookup origin).getD false

/-- Registration step of `HandleWebSocket`: on a successful upgrade the
connection is added to `h.Clients`; a refused upgrade returns before any
registry mutation. -/
def handleWebSocket (allowedOrigins : List String) (origin : String)
    (clients : List Nat) (conn : Nat) : List Nat :=
  if checkOrigin allowedOrigins origin then conn :: clients else clients

/-- `delete(h.Clients, conn)` — removal of one connection from the registry,
as performed both by the read loop of `HandleWebSocket` on a read error and
by `HandleBroadcast` on a write failure. -/
def deregister (clients : List Nat) (conn : Nat) : List Nat :=
  clients.filter (fun c => c ≠ conn)

/-- One iteration of `HandleBroadcast` for a single event: snapshot the
registry, then attempt a write to each snapshot member in order; a failed
write closes that connection and deregisters it.  Returns the registry
afterwards and the ordered list of connections a write was attempted on. -/
def handleBroadcastStep (clients : List Nat) (writeOk : Nat → Bool) :
    List Nat × List Nat :=
  let snapshot := clients
  snapshot.foldl
    (fun st c =>
      if writeOk c then (st.1, st.2 ++ [c])
      else (deregister st.1 c, st.2 ++ [c]))
    (clients, [])

/-! ## Lemmas about the origin check and broadcast fold -/

theorem checkOrigin_aux (origin : String) :
    ∀ (l : List String) (acc : List (String × Bool)),
      (((l.foldl (fun m o => (o, true) :: m) acc).lookup origin).getD false = true)
        ↔ (origin ∈ l ∨ (acc.lookup origin).getD false = true) := by
  intro l
  induction l with
  | nil => intro acc; simp
  | cons a l ih =>
    intro acc
    simp only [List.foldl_cons]
    rw [ih ((a, true) :: acc)]
    by_cases h : origin = a
    · subst h
      simp [List.lookup]
    · have hbeq : (origin == a) = false := by
        simpa using h
      simp [List.lookup, hbeq, List.mem_cons, h]

/-- The upgrader's origin check accepts exactly the configured origins. -/
theorem checkOrigin_iff (allowedOrigins : List String) (origin : String) :
    checkOrigin allowedOrigins origin = true ↔ origin ∈ allowedOrigins := by
  unfold checkOrigin
  rw [checkOrigin_aux origin allowedOrigins []]
  simp [List.lookup]

theorem handleBroadcastStep_foldl_snd (writeOk : Nat → Bool) :
    ∀ (l : List Nat) (cs acc : List Nat),
      (l.foldl
        (fun st c =>
          if writeOk c then (st.1, st.2 ++ [c])
          else (deregister st.1 c, st.2 ++ [c]))
        (cs, acc)).2 = acc ++ l := by
  intro l
  induction l with
  | nil => intro cs acc; simp
  | cons c l ih =>
    intro cs acc
    by_cases h : writeOk c
    · simp only [List.foldl_cons, h, if_true]
      rw [ih]
      simp
    · simp only [List.foldl_cons, h, if_false]
      rw [ih]
      simp

theorem handleBroadcastStep_foldl_fst (writeOk : Nat → Bool) :
    ∀ (l : List Nat) (cs acc : List Nat),
      (l.foldl
        (fun st c =>
          if writeOk c then (st.1, st.2 ++ [c])
          else (deregister st.1 c, st.2 ++ [c]))
        (cs, acc)).1
        = cs.filter (fun x => writeOk x || !(l.contains x)) := by
  intro l
  induction l with
  | nil =>
    intro cs acc
    simp
  | cons c l ih =>
    intro cs acc
    by_cases h : writeOk c
    · simp only [List.foldl_cons]
      rw [if_pos h, ih]
      apply List.filter_congr
      intro x _
      by_cases hx : x = c
      · subst hx; simp [h]
      · simp [List.contains_cons, hx]
    · simp only [List.foldl_cons]
      rw [if_neg h, ih]
      unfold deregister
      simp only [List.filter_filter]
      apply List.filter_congr
      intro x _
      by_cases hx : x = c
      · subst hx
        simp [h]
      · simp [List.contains_cons, hx]

/-! ## Claim theorems: subscription endpoint and broadcast -/

/-- C6: a subscription attempt whose Origin header is not an exact member of
the configured allow-list is refused before any Connection is created: the
registry is returned unchanged (so its member count is unchanged), and the
upgrader's check accepts an origin exactly when it is a configured allowed
origin (so substring or prefix matches are refused). -/
theorem handleWebSocket_rejected_origin_no_registration
    (allowedOrigins : List String) (origin : String)
    (clients : List Nat) (conn : Nat) (h : origin ∉ allowedOrigins) :
    handleWebSocket allowedOrigins origin clients conn = clients
    ∧ (handleWebSocket allowedOrigins origin clients conn).length = clients.length
    ∧ (checkOrigin allowedOrigins origin = true ↔ origin ∈ allowedOrigins) := by
  have hco : checkOrigin allowedOrigins origin = false := by
    cases hb : checkOrigin allowedOrigins origin
    · rfl
    · exact absurd ((checkOrigin_iff allowedOrigins origin).mp hb) h
  refine ⟨?_, ?_, checkOrigin_iff allowedOrigins origin⟩
  · unfold handleWebSocket
    rw [hco]
    simp
  · unfold handleWebSocket
    rw [hco]
    simp

/-- C6 witness: a strict prefix of an allowed origin is refused and leaves a
two-member registry unchanged. -/
theorem handleWebSocket_rejected_origin_no_registration_witness :
    "http://localhost:300" ∉ ["http://localhost:3000", "http://127.0.0.1:3000"]
    ∧ (handleWebSocket ["http://localhost:3000", "http://127.0.0.1:3000"]
        "http://localhost:300" [7, 8] 9 = [7, 8]
      ∧ (handleWebSocket ["http://localhost:3000", "http://127.0.0.1:3000"]
          "http://localhost:300" [7, 8] 9).length = ([7, 8] : List Nat).length
      ∧ (checkOrigin ["http://localhost:3000", "http://127.0.0.1:3000"]
          "http://localhost:300" = true
        ↔ "http://localhost:300" ∈ ["http://localhost:3000", "http://127.0.0.1:3000"])) :=
  ⟨by decide,
    handleWebSocket_rejected_origin_no_registration
      ["http://localhost:3000", "http://127.0.0.1:3000"]
      "http://localhost:300" [7, 8] 9 (by decide)⟩

/-- C10: a subscription attempt with no Origin header (Go's `Header.Get`
yields the empty string) is refused unless the empty string itself is a
configured allowed origin; when it is not configured, the registry is
unchanged. -/
theorem checkOrigin_empty_origin (allowedOrigins : List String)
    (clients : List Nat) (conn : Nat) :
    (checkOrigin allowedOrigins "" = true ↔ "" ∈ allowedOrigins)
    ∧ ("" ∉ allowedOrigins →
        handleWebSocket allowedOrigins "" clients conn = clients) := by
  refine ⟨checkOrigin_iff allowedOrigins "", ?_⟩
  intro h
  exact (handleWebSocket_rejected_origin_no_registration allowedOrigins ""
    clients conn h).1

/-- C10 witness: with the default allow-list, an absent Origin header is
refused and a one-member registry is unchanged. -/
theorem checkOrigin_empty_origin_witness :
    (checkOrigin ["http://localhost:3000", "http://127.0.0.1:3000"] "" = true
      ↔ "" ∈ ["http://localhost:3000", "http://127.0.0.1:3000"])
    ∧ ("" ∉ ["http://localhost:3000", "http://127.0.0.1:3000"] →
        handleWebSocket ["http://localhost:3000", "http://127.0.0.1:3000"] ""
          [4] 5 = [4]) :=
  checkOrigin_empty_origin ["http://localhost:3000", "http://127.0.0.1:3000"] [4] 5

/-- C8: for one event of the Dispatch Loop, a write failure never prevents
the write attempt to any other snapshot member (every snapshot member gets
an attempt, in snapshot order), the failing connections — and only they —
are deregistered, and registry removal is idempotent, so the dispatch-path
removal and the read-loop removal of the same connection can run in either
order without double-processing. -/
theorem handleBroadcastStep_isolation (clients : List Nat)
    (writeOk : Nat → Bool) (conn : Nat) :
    (handleBroadcastStep clients writeOk).2 = clients
    ∧ (handleBroadcastStep clients writeOk).1 = clients.filter writeOk
    ∧ deregister (deregister clients conn) conn = deregister clients conn := by
  refine ⟨?_, ?_, ?_⟩
  · unfold handleBroadcastStep
    rw [handleBroadcastStep_foldl_snd]
    simp
  · unfold handleBroadcastStep
    rw [handleBroadcastStep_foldl_fst]
    apply List.filter_congr
    intro x hx
    simp [List.elem_eq_mem, hx]
  · unfold deregister
    simp [List.filter_filter]

/-! ## Claim theorems: create handler -/

/-- C4: every successful create answers with a message whose id is the
store's auto-increment counter, whose `created_at` is the handler's current
time, and whose `deleted_at` is absent — whatever id, `created_at` or
`deleted_at` the client supplied in the body; the same row is appended to
the store. -/
theorem createMessage_fields_server_assigned (s : Store) (now bodySize : Nat)
    (m : Message) (hsize : bodySize ≤ maxBodyBytes) (hcontent : m.content ≠ "") :
    (createMessage s now bodySize (some m)).response
        = .ok { id := Nat.repr s.nextId, content := m.content,
                createdAt := now, deletedAt := none }
    ∧ (createMessage s now bodySize (some m)).store.rows
        = s.rows ++ [{ id := Nat.repr s.nextId, content := m.content,
                       createdAt := now, deletedAt := none }] := by
  have hn : ¬ bodySize > maxBodyBytes := by omega
  unfold createMessage
  simp [hn, hcontent]

/-- C4 witness: a client-supplied id, `created_at` and `deleted_at` are all
discarded on create. -/
theorem createMessage_fields_server_assigned_witness :
    10 ≤ maxBodyBytes
    ∧ ("hi" : String) ≠ ""
    ∧ ((createMessage ⟨[], 1⟩ 5 10 (some ⟨"evil", "hi", 999, some 3⟩)).response
        = .ok { id := Nat.repr 1, content := "hi", createdAt := 5, deletedAt := none }
      ∧ (createMessage ⟨[], 1⟩ 5 10 (some ⟨"evil", "hi", 999, some 3⟩)).store.rows
        = [] ++ [{ id := Nat.repr 1, content := "hi", createdAt := 5, deletedAt := none }]) :=
  ⟨by decide, by decide,
    createMessage_fields_server_assigned ⟨[], 1⟩ 5 10 ⟨"evil", "hi", 999, some 3⟩
      (by decide) (by decide)⟩

/-- C9: a create request is answered with a validation error exactly when
the body exceeds the 1 MiB ceiling, the body does not decode, or the
decoded content is empty; in each of these cases the store is unchanged (no
row is inserted). -/
theorem createMessage_validation_iff (s : Store) (now bodySize : Nat)
    (body : Option Message) :
    ((∃ e, (createMessage s now bodySize body).response = .error e)
        ↔ (bodySize > maxBodyBytes ∨ body = none
            ∨ ∃ m, body = some m ∧ m.content = ""))
    ∧ ((∃ e, (createMessage s now bodySize body).response = .error e)
        → (createMessage s now bodySize body).store = s) := by
  unfold createMessage
  by_cases hsize : bodySize > maxBodyBytes
  · simp [hsize]
  · cases body with
    | none => simp [hsize]
    | some m =>
      by_cases hc : m.content = ""
      · simp [hsize, hc]
      · simp [hsize, hc]

/-- C9 witness: a body over the 1 MiB cap is rejected and inserts nothing,
and an empty-content body is rejected. -/
theorem createMessage_validation_iff_witness :
    (createMessage ⟨[], 1⟩ 0 (maxBodyBytes + 1) (some ⟨"", "hi", 0, none⟩)).store
        = (⟨[], 1⟩ : Store)
    ∧ (∃ e, (createMessage ⟨[], 1⟩ 0 4 (some ⟨"", "", 0, none⟩)).response
        = .error e) := by
  constructor
  · exact (createMessage_validation_iff ⟨[], 1⟩ 0 (maxBodyBytes + 1)
      (some ⟨"", "hi", 0, none⟩)).2
      ((createMessage_validation_iff ⟨[], 1⟩ 0 (maxBodyBytes + 1)
        (some ⟨"", "hi", 0, none⟩)).1.mpr (Or.inl (by omega)))
  · exact (createMessage_validation_iff ⟨[], 1⟩ 0 4 (some ⟨"", "", 0, none⟩)).1.mpr
      (Or.inr (Or.inr ⟨⟨"", "", 0, none⟩, rfl, rfl⟩))

/-! ## Claim theorems: list handler -/

theorem getMessages_ok_eq (allowedOrigins : List String) (origin referer : String)
    (parsedReferer : Option URL) (sample : List Message) (lst : List Message)
    (hok : (getMessages allowedOrigins origin referer parsedReferer sample).response
      = .ok lst) :
    lst = listSelect sample := by
  unfold getMessages at hok
  split at hok
  · split at hok
    · injection hok with h
      exact h.symm
    · exact absurd hok (by simp)
  · split at hok
    · exact absurd hok (by simp)
    · split at hok
      · exact absurd hok (by simp)
      · split at hok
        · exact absurd hok (by simp)
        · split at hok
          · injection hok with h
            exact h.symm
          · exact absurd hok (by simp)

/-- C5: when a list request passes origin validation, every returned message
corresponds to a stored row whose `deleted_at` is absent, and the result is
capped at `maxMessagesPerRequest` (10): its length is the minimum of 10 and
the number of active rows, so with more than 10 active rows exactly 10 are
returned. -/
theorem getMessages_only_active_and_capped (allowedOrigins : List String)
    (origin referer : String) (parsedReferer : Option URL)
    (s : Store) (sample : List Message) (hperm : sample.Perm (activeRows s))
    (lst : List Message)
    (hok : (getMessages allowedOrigins origin referer parsedReferer sample).response
      = .ok lst) :
    (∀ m ∈ lst, ∃ row ∈ s.rows, row.deletedAt = none ∧ m.id = row.id
        ∧ m.content = row.content ∧ m.createdAt = row.createdAt
        ∧ m.deletedAt = none)
    ∧ lst.length = min maxMessagesPerRequest (activeRows s).length
    ∧ (maxMessagesPerRequest < (activeRows s).length
        → lst.length = maxMessagesPerRequest) := by
  have hl : lst = listSelect sample :=
    getMessages_ok_eq allowedOrigins origin referer parsedReferer sample lst hok
  subst hl
  have hlen : sample.length = (activeRows s).length := hperm.length_eq
  refine ⟨?_, ?_, ?_⟩
  · intro m hm
    unfold listSelect at hm
    rcases List.mem_map.mp hm with ⟨m0, hm0, rfl⟩
    have hmem : m0 ∈ sample := List.mem_of_mem_take hm0
    have hact : m0 ∈ activeRows s := (hperm.mem_iff).mp hmem
    unfold activeRows at hact
    rcases List.mem_filter.mp hact with ⟨hrow, hnone⟩
    refine ⟨m0, hrow, ?_, rfl, rfl, rfl, rfl⟩
    exact Option.isNone_iff_eq_none.mp hnone
  · unfold listSelect
    rw [List.length_map, List.length_take, hlen]
  · intro hgt
    unfold listSelect
    rw [List.length_map, List.length_take, hlen]
    omega

/-- C5 witness: with 11 active rows and one soft-deleted row, a validated
list request returns exactly 10 messages, each a live row. -/
theorem getMessages_only_active_and_capped_witness :
    (activeRows ⟨((List.range 11).map
        (fun k => ⟨Nat.repr (k + 1), "m", 0, none⟩))
        ++ [⟨"12", "gone", 0, some 3⟩], 13⟩).Perm
      (activeRows ⟨((List.range 11).map
        (fun k => ⟨Nat.repr (k + 1), "m", 0, none⟩))
        ++ [⟨"12", "gone", 0, some 3⟩], 13⟩)
    ∧ (getMessages ["http://localhost:3000"] "http://localhost:3000" "" none
        (activeRows ⟨((List.range 11).map
          (fun k => ⟨Nat.repr (k + 1), "m", 0, none⟩))
          ++ [⟨"12", "gone", 0, some 3⟩], 13⟩)).response
      = .ok (listSelect (activeRows ⟨((List.range 11).map
          (fun k => ⟨Nat.repr (k + 1), "m", 0, none⟩))
          ++ [⟨"12", "gone", 0, some 3⟩], 13⟩))
    ∧ (listSelect (activeRows ⟨((List.range 11).map
          (fun k => ⟨Nat.repr (k + 1), "m", 0, none⟩))
          ++ [⟨"12", "gone", 0, some 3⟩], 13⟩)).length = maxMessagesPerRequest := by
  refine ⟨List.Perm.refl _, rfl, ?_⟩
  have h := getMessages_only_active_and_capped ["http://localhost:3000"]
    "http://localhost:3000" "" none
    ⟨((List.range 11).map (fun k => ⟨Nat.repr (k + 1), "m", 0, none⟩))
      ++ [⟨"12", "gone", 0, some 3⟩], 13⟩
    (activeRows ⟨((List.range 11).map (fun k => ⟨Nat.repr (k + 1), "m", 0, none⟩))
      ++ [⟨"12", "gone", 0, some 3⟩], 13⟩)
    (List.Perm.refl _) _ rfl
  exact h.2.2 (by decide)

/-- C7: a list request with a nonempty Origin header passes exactly when
that origin is allowed; with an empty Origin the Referer must be nonempty,
parse to a URL with nonempty scheme and host, and its `scheme://host` must
be allowed; a request failing this is answered "Forbidden" and the store is
not queried; and the list check `isOriginAllowed` agrees with the
subscription upgrader's `checkOrigin` on every origin, over the same
configured allow-list. -/
theorem getMessages_origin_referer_validation (allowedOrigins : List String)
    (origin referer : String) (parsedReferer : Option URL)
    (sample : List Message) :
    ((∃ err, (getMessages allowedOrigins origin referer parsedReferer sample).response
        = .error err)
      ↔ ¬ ((origin ≠ "" ∧ isOriginAllowed allowedOrigins origin = true)
        ∨ (origin = "" ∧ referer ≠ ""
            ∧ ∃ u, parsedReferer = some u ∧ u.scheme ≠ "" ∧ u.host ≠ ""
              ∧ isOriginAllowed allowedOrigins (u.scheme ++ "://" ++ u.host) = true)))
    ∧ ((∃ err, (getMessages allowedOrigins origin referer parsedReferer sample).response
        = .error err)
      → (getMessages allowedOrigins origin referer parsedReferer sample).queried
          = false
        ∧ (getMessages allowedOrigins origin referer parsedReferer sample).response
          = .error "Forbidden")
    ∧ (∀ o, isOriginAllowed allowedOrigins o = checkOrigin allowedOrigins o) := by
  refine ⟨?_, ?_, ?_⟩
  · unfold getMessages
    by_cases ho : origin = ""
    · simp only [ho, ne_eq, not_true_eq_false, if_false, ite_not]
      by_cases hr : referer = ""
      · simp [hr]
      · simp only [hr, if_false]
        cases parsedReferer with
        | none => simp
        | some u =>
          by_cases hs : u.scheme = ""
          · simp [hs, hr]
          · by_cases hh : u.host = ""
            · simp [hs, hh, hr]
            · by_cases hal : isOriginAllowed allowedOrigins (u.scheme ++ "://" ++ u.host)
              · simp [hs, hh, hr, hal]
              · simp [hs, hh, hr, hal]
    · by_cases hal : isOriginAllowed allowedOrigins origin
      · simp [ho, hal]
      · simp [ho, hal]
  · unfold getMessages
    by_cases ho : origin = ""
    · simp only [ho, ne_eq, not_true_eq_false, if_false, ite_not]
      by_cases hr : referer = ""
      · simp [hr]
      · simp only [hr, if_false]
        cases parsedReferer with
        | none => simp
        | some u =>
          by_cases hsh : u.scheme = "" ∨ u.host = ""
          · rcases hsh with hs | hh
            · simp [hs]
            · simp [hh]
          · push_neg at hsh
            by_cases hal : isOriginAllowed allowedOrigins (u.scheme ++ "://" ++ u.host)
            · simp [hsh.1, hsh.2, hal]
            · simp [hsh.1, hsh.2, hal]
    · by_cases hal : isOriginAllowed allowedOrigins origin
      · simp [ho, hal]
      · simp [ho, hal]
  · intro o
    have hiff := checkOrigin_iff allowedOrigins o
    by_cases hmem : o ∈ allowedOrigins
    · have h1 : isOriginAllowed allowedOrigins o = true := by
        unfold isOriginAllowed
        simp only [List.any_eq_true, decide_eq_true_eq]
        exact ⟨o, hmem, rfl⟩
      have h2 : checkOrigin allowedOrigins o = true := hiff.mpr hmem
      rw [h1, h2]
    · have h1 : isOriginAllowed allowedOrigins o = false := by
        unfold isOriginAllowed
        simp only [List.any_eq_false, decide_eq_true_eq]
        intro a ha he
        exact hmem (he ▸ ha)
      have h2 : checkOrigin allowedOrigins o = false := by
        cases hb : checkOrigin allowedOrigins o
        · rfl
        · exact absurd (hiff.mp hb) hmem
      rw [h1, h2]

/-- C7 witness: a request with neither Origin nor Referer is Forbidden and
never reaches the store. -/
theorem getMessages_origin_referer_validation_witness :
    (getMessages ["http://localhost:3000"] "" "" none []).queried = false
    ∧ (getMessages ["http://localhost:3000"] "" "" none []).response
      = .error "Forbidden" :=
  (getMessages_origin_referer_validation ["http://localhost:3000"] "" "" none []).2.1
    ((getMessages_origin_referer_validation ["http://localhost:3000"] "" "" none
      []).1.mpr (by simp))

/-! ## Operation traces over the store

A trace is a list of mutation requests applied in the order the database
serializes them (see §5 of the design: the store provides the atomicity of
the existence-check-plus-update of a delete, so concurrent deletes of the
same id appear in some serial order).  Each operation carries the
`time.Now()` value observed by its handler; wall-clock time is monotone,
which traces assume as a `Chain'` hypothesis on the recorded times. -/

/-- One mutation request: a create (with its decoded body and body size) or
a delete of an identifier, each at the time its handler observes. -/
inductive Op
  | create (bodySize : Nat) (body : Option Message) (t : Nat)
  | delete (id : String) (t : Nat)
deriving Repr

/-- The `time.Now()` value an operation's handler observes. -/
def Op.time : Op → Nat
  | .create _ _ t => t
  | .delete _ t => t

/-- The store after one request (failed requests leave it unchanged). -/
def applyOp (s : Store) : Op → Store
  | .create bodySize body t => (createMessage s t bodySize body).store
  | .delete id t => (deleteMessage s id t).store

/-- The store after a serialized trace of requests. -/
def runOps (s : Store) (ops : List Op) : Store := ops.foldl applyOp s

/-- Id discipline maintained by the handlers: every row's id is the decimal
rendering of a counter value below `nextId`, and row ids are pairwise
distinct. -/
def IdInv (s : Store) : Prop :=
  (∀ m ∈ s.rows, ∃ k, k < s.nextId ∧ m.id = Nat.repr k)
  ∧ (s.rows.map Message.id).Nodup

/-- Time discipline: every row's `created_at` is at most `bound`, and a set
`deleted_at` lies between the row's `created_at` and `bound`. -/
def TimeOk (bound : Nat) (s : Store) : Prop :=
  ∀ m ∈ s.rows, m.createdAt ≤ bound
    ∧ ∀ t, m.deletedAt = some t → m.createdAt ≤ t ∧ t ≤ bound

/-- No row with this id is active (absent id, or already soft-deleted). -/
def NoActive (s : Store) (id : String) : Prop :=
  ∀ m ∈ s.rows, m.id = id → m.deletedAt ≠ none

theorem IdInv_empty : IdInv Store.empty := by
  constructor
  · intro m hm; exact absurd hm (by simp [Store.empty])
  · simp [Store.empty]

theorem createMessage_store_cases (s : Store) (now bodySize : Nat)
    (body : Option Message) :
    (createMessage s now bodySize body).store = s
    ∨ ∃ m, body = some m ∧ ¬ bodySize > maxBodyBytes ∧ m.content ≠ ""
      ∧ (createMessage s now bodySize body).store
        = ⟨s.rows ++ [⟨Nat.repr s.nextId, m.content, now, none⟩], s.nextId + 1⟩ := by
  unfold createMessage
  by_cases hsize : bodySize > maxBodyBytes
  · left; simp [hsize]
  · cases body with
    | none => left; simp [hsize]
    | some m =>
      by_cases hc : m.content = ""
      · left; simp [hsize, hc]
      · right; exact ⟨m, rfl, hsize, hc, by simp [hsize, hc]⟩

theorem deleteMessage_store_cases (s : Store) (id : String) (now : Nat) :
    (existsActive s id = false ∧ (deleteMessage s id now).store = s)
    ∨ (existsActive s id = true
      ∧ (deleteMessage s id now).store = ⟨updateDeletedAt s.rows id now, s.nextId⟩) := by
  unfold deleteMessage
  by_cases h : existsActive s id
  · right; exact ⟨h, by simp [h]⟩
  · left
    refine ⟨by simpa using h, by simp [h]⟩

theorem updateDeletedAt_mem (rows : List Message) (id : String) (now : Nat)
    (m' : Message) (hm' : m' ∈ updateDeletedAt rows id now) :
    ∃ m ∈ rows, m'.id = m.id ∧ m'.createdAt = m.createdAt
      ∧ (m' = m ∨ (m.id = id ∧ m'.deletedAt = some now)) := by
  unfold updateDeletedAt at hm'
  rcases List.mem_map.mp hm' with ⟨m, hm, rfl⟩
  by_cases h : m.id = id
  · exact ⟨m, hm, by simp [h], by simp [h], Or.inr ⟨h, by simp [h]⟩⟩
  · exact ⟨m, hm, by simp [h], by simp [h], Or.inl (by simp [h])⟩

theorem nextId_mono (s : Store) (op : Op) : s.nextId ≤ (applyOp s op).nextId := by
  cases op with
  | create bodySize body t =>
    show s.nextId ≤ (createMessage s t bodySize body).store.nextId
    rcases createMessage_store_cases s t bodySize body with h | ⟨m, _, _, _, h⟩
    · rw [h]
    · rw [h]; show s.nextId ≤ s.nextId + 1; omega
  | delete id t =>
    show s.nextId ≤ (deleteMessage s id t).store.nextId
    rcases deleteMessage_store_cases s id t with ⟨_, h⟩ | ⟨_, h⟩
    · rw [h]
    · rw [h]

theorem updateDeletedAt_id (rows : List Message) (id : String) (now : Nat) :
    (updateDeletedAt rows id now).map Message.id = rows.map Message.id := by
  unfold updateDeletedAt
  rw [List.map_map]
  apply List.map_congr_left
  intro m _
  by_cases h : m.id = id
  · simp [h]
  · simp [h]

theorem IdInv_applyOp (s : Store) (op : Op) (h : IdInv s) : IdInv (applyOp s op) := by
  obtain ⟨hids, hnodup⟩ := h
  cases op with
  | create bodySize body t =>
    show IdInv (createMessage s t bodySize body).store
    rcases createMessage_store_cases s t bodySize body with heq | ⟨m, _, _, _, heq⟩
    · rw [heq]; exact ⟨hids, hnodup⟩
    · rw [heq]
      constructor
      · intro m' hm'
        simp only [List.mem_append, List.mem_singleton] at hm'
        rcases hm' with hm' | hm'
        · obtain ⟨k, hk, hkid⟩ := hids m' hm'
          exact ⟨k, by show k < s.nextId + 1; omega, hkid⟩
        · exact ⟨s.nextId, by show s.nextId < s.nextId + 1; omega, by simp [hm']⟩
      · simp only [List.map_append, List.map_cons, List.map_nil]
        rw [List.nodup_append]
        refine ⟨hnodup, by simp, ?_⟩
        intro x hx
        simp only [List.mem_map] at hx
        obtain ⟨m', hm', rfl⟩ := hx
        obtain ⟨k, hk, hkid⟩ := hids m' hm'
        simp only [List.mem_singleton]
        rw [hkid]
        intro hcontra
        have := repr_injective hcontra
        omega
  | delete id t =>
    show IdInv (deleteMessage s id t).store
    rcases deleteMessage_store_cases s id t with ⟨_, heq⟩ | ⟨_, heq⟩
    · rw [heq]; exact ⟨hids, hnodup⟩
    · rw [heq]
      constructor
      · intro m' hm'
        obtain ⟨m, hm, hid, _, _⟩ := updateDeletedAt_mem s.rows id t m' hm'
        obtain ⟨k, hk, hkid⟩ := hids m hm
        exact ⟨k, hk, hid.trans hkid⟩
      · show ((updateDeletedAt s.rows id t).map Message.id).Nodup
        rw [updateDeletedAt_id]
        exact hnodup

theorem IdInv_runOps (s : Store) (ops : List Op) (h : IdInv s) :
    IdInv (runOps s ops) := by
  induction ops generalizing s with
  | nil => exact h
  | cons op ops ih =>
    show IdInv (runOps (applyOp s op) ops)
    exact ih (applyOp s op) (IdInv_applyOp s op h)

theorem updateDeletedAt_mem_eq (rows : List Message) (id : String) (now : Nat)
    (m' : Message) (hm' : m' ∈ updateDeletedAt rows id now) :
    ∃ m ∈ rows,
      m' = if m.id = id then { m with deletedAt := some now } else m := by
  unfold updateDeletedAt at hm'
  rcases List.mem_map.mp hm' with ⟨m, hm, rfl⟩
  exact ⟨m, hm, rfl⟩

theorem existsActive_iff (s : Store) (id : String) :
    existsActive s id = true ↔ ∃ m ∈ s.rows, m.id = id ∧ m.deletedAt = none := by
  unfold existsActive
  rw [List.any_eq_true]
  constructor
  · rintro ⟨m, hm, hp⟩
    simp only [Bool.and_eq_true, decide_eq_true_eq, Option.isNone_iff_eq_none] at hp
    exact ⟨m, hm, hp⟩
  · rintro ⟨m, hm, h1, h2⟩
    exact ⟨m, hm, by simp [h1, h2]⟩

theorem deleteMessage_ok_parts (s : Store) (id : String) (now : Nat)
    (h : existsActive s id = true) :
    (deleteMessage s id now).response = .ok ()
    ∧ (deleteMessage s id now).effects
      = [.storeWrite id now, .enqueue ⟨"message_deleted", id, now⟩] := by
  unfold deleteMessage
  simp [h]

theorem deleteMessage_err_parts (s : Store) (id : String) (now : Nat)
    (h : existsActive s id = false) :
    (deleteMessage s id now).response = .error .notFound
    ∧ (deleteMessage s id now).effects = [] := by
  unfold deleteMessage
  simp [h]

/-- Time discipline is preserved by one operation whose observed time is at
least the current bound, and lifts the bound to that time. -/
theorem TimeOk_applyOp (bound : Nat) (s : Store) (op : Op)
    (h : TimeOk bound s) (hle : bound ≤ op.time) : TimeOk op.time (applyOp s op) := by
  cases op with
  | create bodySize body t =>
    show TimeOk t (createMessage s t bodySize body).store
    simp only [Op.time] at hle
    rcases createMessage_store_cases s t bodySize body with heq | ⟨m, _, _, _, heq⟩
    · rw [heq]
      intro m' hm'
      obtain ⟨h1, h2⟩ := h m' hm'
      exact ⟨by omega, fun u hu => ⟨(h2 u hu).1, by have := (h2 u hu).2; omega⟩⟩
    · rw [heq]
      intro m' hm'
      simp only [List.mem_append, List.mem_singleton] at hm'
      rcases hm' with hm' | hm'
      · obtain ⟨h1, h2⟩ := h m' hm'
        exact ⟨by omega, fun u hu => ⟨(h2 u hu).1, by have := (h2 u hu).2; omega⟩⟩
      · subst hm'
        exact ⟨le_refl t, fun u hu => by simp at hu⟩
  | delete id t =>
    show TimeOk t (deleteMessage s id t).store
    simp only [Op.time] at hle
    rcases deleteMessage_store_cases s id t with ⟨_, heq⟩ | ⟨_, heq⟩
    · rw [heq]
      intro m' hm'
      obtain ⟨h1, h2⟩ := h m' hm'
      exact ⟨by omega, fun u hu => ⟨(h2 u hu).1, by have := (h2 u hu).2; omega⟩⟩
    · rw [heq]
      intro m' hm'
      obtain ⟨m, hm, heqm⟩ := updateDeletedAt_mem_eq s.rows id t m' hm'
      obtain ⟨h1, h2⟩ := h m hm
      by_cases hid : m.id = id
      · rw [if_pos hid] at heqm
        subst heqm
        refine ⟨by simp only []; omega, fun u hu => ?_⟩
        simp only [Option.some.injEq] at hu
        subst hu
        exact ⟨by simp only []; omega, le_refl t⟩
      · rw [if_neg hid] at heqm
        subst heqm
        exact ⟨by omega, fun u hu => ⟨(h2 u hu).1, by have := (h2 u hu).2; omega⟩⟩

theorem TimeOk_runOps (ops : List Op) (bound : Nat) (s : Store)
    (h : TimeOk bound s)
    (hchain : List.Chain' (· ≤ ·) (bound :: ops.map Op.time)) :
    ∃ b, TimeOk b (runOps s ops) := by
  induction ops generalizing s bound with
  | nil => exact ⟨bound, h⟩
  | cons op ops ih =>
    simp only [List.map_cons] at hchain
    rw [List.chain'_cons] at hchain
    obtain ⟨hle, hchain⟩ := hchain
    exact ih op.time (applyOp s op) (TimeOk_applyOp bound s op h hle) hchain

/-- A soft-deleted row is literally untouched by any further operation:
creates only append, and a successful delete can only target an id whose
unique row is still active. -/
theorem row_stable_applyOp (s : Store) (op : Op) (i : Nat) (m : Message)
    (t : Nat) (hinv : IdInv s) (hget : s.rows[i]? = some m)
    (hdel : m.deletedAt = some t) : (applyOp s op).rows[i]? = some m := by
  have hilen : i < s.rows.length := by
    rcases List.getElem?_eq_some.mp hget with ⟨hlt, _⟩
    exact hlt
  cases op with
  | create bodySize body t' =>
    show (createMessage s t' bodySize body).store.rows[i]? = some m
    rcases createMessage_store_cases s t' bodySize body with heq | ⟨m', _, _, _, heq⟩
    · rw [heq]; exact hget
    · rw [heq]
      show (s.rows ++ _)[i]? = some m
      rw [List.getElem?_append_left hilen]
      exact hget
  | delete id t' =>
    show (deleteMessage s id t').store.rows[i]? = some m
    rcases deleteMessage_store_cases s id t' with ⟨_, heq⟩ | ⟨hact, heq⟩
    · rw [heq]; exact hget
    · rw [heq]
      show (updateDeletedAt s.rows id t')[i]? = some m
      unfold updateDeletedAt
      rw [List.getElem?_map, hget]
      simp only [Option.map_some']
      by_cases hid : m.id = id
      · exfalso
        obtain ⟨m₂, hm₂, hm₂id, hm₂del⟩ := (existsActive_iff s id).mp hact
        have hmem : m ∈ s.rows := List.getElem?_mem hget
        have hne : m ≠ m₂ := by
          intro hcontra
          rw [hcontra, hm₂del] at hdel
          exact Option.noConfusion hdel
        have : m = m₂ :=
          List.inj_on_of_nodup_map hinv.2 hmem hm₂ (hid.trans hm₂id.symm)
        exact hne this
      · rw [if_neg hid]

theorem row_stable_runOps (s : Store) (ops : List Op) (i : Nat) (m : Message)
    (t : Nat) (hinv : IdInv s) (hget : s.rows[i]? = some m)
    (hdel : m.deletedAt = some t) : (runOps s ops).rows[i]? = some m := by
  induction ops generalizing s with
  | nil => exact hget
  | cons op ops ih =>
    show (runOps (applyOp s op) ops).rows[i]? = some m
    exact ih (applyOp s op) (IdInv_applyOp s op hinv)
      (row_stable_applyOp s op i m t hinv hget hdel)

/-- An id some counter value below `nextId` renders to; delete can never
succeed again on such an id once no row carrying it is active, because
future creates are handed strictly larger counter values. -/
def UsedId (s : Store) (id : String) : Prop :=
  ∃ k, k < s.nextId ∧ id = Nat.repr k

theorem NoActive_applyOp (s : Store) (op : Op) (id : String)
    (hused : UsedId s id) (h : NoActive s id) :
    NoActive (applyOp s op) id ∧ UsedId (applyOp s op) id := by
  obtain ⟨k, hk, hkid⟩ := hused
  have hnext := nextId_mono s op
  constructor
  · cases op with
    | create bodySize body t =>
      show NoActive (createMessage s t bodySize body).store id
      rcases createMessage_store_cases s t bodySize body with heq | ⟨m, _, _, _, heq⟩
      · rw [heq]; exact h
      · rw [heq]
        intro m' hm' hid
        simp only [List.mem_append, List.mem_singleton] at hm'
        rcases hm' with hm' | hm'
        · exact h m' hm' hid
        · exfalso
          subst hm'
          simp only [] at hid
          have : s.nextId = k := repr_injective (hid.trans hkid)
          omega
    | delete id₂ t =>
      show NoActive (deleteMessage s id₂ t).store id
      rcases deleteMessage_store_cases s id₂ t with ⟨_, heq⟩ | ⟨_, heq⟩
      · rw [heq]; exact h
      · rw [heq]
        intro m' hm' hid
        obtain ⟨m, hm, heqm⟩ := updateDeletedAt_mem_eq s.rows id₂ t m' hm'
        by_cases hid₂ : m.id = id₂
        · rw [if_pos hid₂] at heqm
          subst heqm
          simp
        · rw [if_neg hid₂] at heqm
          subst heqm
          exact h _ hm hid
  · exact ⟨k, by omega, hkid⟩

theorem NoActive_runOps (s : Store) (ops : List Op) (id : String)
    (hused : UsedId s id) (h : NoActive s id) : NoActive (runOps s ops) id := by
  induction ops generalizing s with
  | nil => exact h
  | cons op ops ih =>
    show NoActive (runOps (applyOp s op) ops) id
    obtain ⟨h1, h2⟩ := NoActive_applyOp s op id hused h
    exact ih (applyOp s op) h2 h1

theorem existsActive_eq_false_of_NoActive (s : Store) (id : String)
    (h : NoActive s id) : existsActive s id = false := by
  cases hb : existsActive s id
  · rfl
  · obtain ⟨m, hm, h1, h2⟩ := (existsActive_iff s id).mp hb
    exact absurd h2 (h m hm h1)

/-! ## Claim theorems: delete handler and the soft-delete invariant -/

/-- C1: a delete request is answered not-found exactly when no row with the
requested id is active (the id is absent or its row is already
soft-deleted); when an active row exists the delete succeeds, and every
later delete of the same id — after any further serialized trace of
requests — is answered not-found. -/
theorem deleteMessage_notFound_iff_and_once (s : Store) (id : String)
    (now : Nat) (hinv : IdInv s) :
    ((deleteMessage s id now).response = .error .notFound
        ↔ ¬ ∃ m ∈ s.rows, m.id = id ∧ m.deletedAt = none)
    ∧ ((∃ m ∈ s.rows, m.id = id ∧ m.deletedAt = none) →
        (deleteMessage s id now).response = .ok ()
        ∧ ∀ (ops : List Op) (now₂ : Nat),
            (deleteMessage (runOps (deleteMessage s id now).store ops) id
              now₂).response = .error DeleteErr.notFound) := by
  constructor
  · constructor
    · intro herr hex
      have hact : existsActive s id = true := (existsActive_iff s id).mpr hex
      rw [(deleteMessage_ok_parts s id now hact).1] at herr
      exact Except.noConfusion herr
    · intro hnex
      have hact : existsActive s id = false := by
        cases hb : existsActive s id
        · rfl
        · exact absurd ((existsActive_iff s id).mp hb) hnex
      exact (deleteMessage_err_parts s id now hact).1
  · intro hex
    have hact : existsActive s id = true := (existsActive_iff s id).mpr hex
    refine ⟨(deleteMessage_ok_parts s id now hact).1, ?_⟩
    intro ops now₂
    obtain ⟨m₀, hm₀, hm₀id, _⟩ := hex
    obtain ⟨k, hk, hkid⟩ := hinv.1 m₀ hm₀
    have hused : UsedId (deleteMessage s id now).store id := by
      rcases deleteMessage_store_cases s id now with ⟨hf, _⟩ | ⟨_, heq⟩
      · exact absurd hact (by simp [hf])
      · rw [heq]
        exact ⟨k, hk, hm₀id ▸ hkid⟩
    have hnoact : NoActive (deleteMessage s id now).store id := by
      rcases deleteMessage_store_cases s id now with ⟨hf, _⟩ | ⟨_, heq⟩
      · exact absurd hact (by simp [hf])
      · rw [heq]
        intro m' hm' hid'
        obtain ⟨m, hm, heqm⟩ := updateDeletedAt_mem_eq s.rows id now m' hm'
        by_cases hcase : m.id = id
        · rw [if_pos hcase] at heqm
          subst heqm
          simp
        · rw [if_neg hcase] at heqm
          subst heqm
          exact absurd hid' hcase
    have hfinal : NoActive (runOps (deleteMessage s id now).store ops) id :=
      NoActive_runOps _ ops id hused hnoact
    exact (deleteMessage_err_parts _ id now₂
      (existsActive_eq_false_of_NoActive _ id hfinal)).1

/-- C1 witness: a store holding the single active row `"1"`: deleting `"1"`
succeeds once, and a retry (here after an empty further trace) is
not-found. -/
theorem deleteMessage_notFound_iff_and_once_witness :
    IdInv ⟨[⟨Nat.repr 1, "hi", 0, none⟩], 2⟩
    ∧ (∃ m ∈ (⟨[⟨Nat.repr 1, "hi", 0, none⟩], 2⟩ : Store).rows,
        m.id = Nat.repr 1 ∧ m.deletedAt = none)
    ∧ (deleteMessage ⟨[⟨Nat.repr 1, "hi", 0, none⟩], 2⟩ (Nat.repr 1) 5).response
        = .ok ()
    ∧ (deleteMessage
        (runOps (deleteMessage ⟨[⟨Nat.repr 1, "hi", 0, none⟩], 2⟩
          (Nat.repr 1) 5).store [])
        (Nat.repr 1) 6).response = .error DeleteErr.notFound := by
  have hinv : IdInv (⟨[⟨Nat.repr 1, "hi", 0, none⟩], 2⟩ : Store) := by
    constructor
    · intro m hm
      simp only [List.mem_singleton] at hm
      exact ⟨1, by show (1:Nat) < 2; omega, by rw [hm]⟩
    · simp
  have hex : ∃ m ∈ (⟨[⟨Nat.repr 1, "hi", 0, none⟩], 2⟩ : Store).rows,
      m.id = Nat.repr 1 ∧ m.deletedAt = none :=
    ⟨⟨Nat.repr 1, "hi", 0, none⟩, by simp, rfl, rfl⟩
  have h := (deleteMessage_notFound_iff_and_once
    ⟨[⟨Nat.repr 1, "hi", 0, none⟩], 2⟩ (Nat.repr 1) 5 hinv).2 hex
  exact ⟨hinv, hex, h.1, h.2 [] 6⟩

/-- C2: every successful delete performs the store write setting
`deleted_at = now` strictly before enqueuing the DeleteEvent; the enqueued
event has type tag "message_deleted", the deleted id, and exactly the
`deleted_at` timestamp now recorded in the store on every row carrying that
id (of which there is at least one). -/
theorem deleteMessage_effects_order (s : Store) (id : String) (now : Nat)
    (h : (deleteMessage s id now).response = .ok ()) :
    ∃ ev : DeleteEventMessage,
      (deleteMessage s id now).effects
        = [Effect.storeWrite id now, Effect.enqueue ev]
      ∧ ev.type = "message_deleted" ∧ ev.id = id ∧ ev.deletedAt = now
      ∧ (∃ m ∈ (deleteMessage s id now).store.rows,
          m.id = id ∧ m.deletedAt = some ev.deletedAt)
      ∧ (∀ m ∈ (deleteMessage s id now).store.rows,
          m.id = id → m.deletedAt = some ev.deletedAt) := by
  have hact : existsActive s id = true := by
    cases hb : existsActive s id
    · rw [(deleteMessage_err_parts s id now (by simp [hb])).1] at h
      exact Except.noConfusion h
    · rfl
  refine ⟨⟨"message_deleted", id, now⟩,
    (deleteMessage_ok_parts s id now hact).2, rfl, rfl, rfl, ?_, ?_⟩
  · obtain ⟨m₀, hm₀, hid₀, hdel₀⟩ := (existsActive_iff s id).mp hact
    rcases deleteMessage_store_cases s id now with ⟨hf, _⟩ | ⟨_, heq⟩
    · exact absurd hact (by simp [hf])
    · rw [heq]
      refine ⟨{ m₀ with deletedAt := some now }, ?_, by simp [hid₀], by simp⟩
      show _ ∈ updateDeletedAt s.rows id now
      unfold updateDeletedAt
      rw [List.mem_map]
      exact ⟨m₀, hm₀, by rw [if_pos hid₀]⟩
  · intro m' hm' hid'
    rcases deleteMessage_store_cases s id now with ⟨hf, _⟩ | ⟨_, heq⟩
    · exact absurd hact (by simp [hf])
    · rw [heq] at hm'
      obtain ⟨m, hm, heqm⟩ := updateDeletedAt_mem_eq s.rows id now m' hm'
      by_cases hcase : m.id = id
      · rw [if_pos hcase] at heqm
        subst heqm
        rfl
      · rw [if_neg hcase] at heqm
        subst heqm
        exact absurd hid' hcase

/-- C2 witness: deleting the single active row `"1"` at time 5 writes the
store first, then enqueues `{type: "message_deleted", id: "1",
deleted_at: 5}`. -/
theorem deleteMessage_effects_order_witness :
    (deleteMessage ⟨[⟨"1", "hi", 0, none⟩], 2⟩ "1" 5).response = .ok ()
    ∧ ∃ ev : DeleteEventMessage,
      (deleteMessage ⟨[⟨"1", "hi", 0, none⟩], 2⟩ "1" 5).effects
        = [Effect.storeWrite "1" 5, Effect.enqueue ev]
      ∧ ev.type = "message_deleted" ∧ ev.id = "1" ∧ ev.deletedAt = 5
      ∧ (∃ m ∈ (deleteMessage ⟨[⟨"1", "hi", 0, none⟩], 2⟩ "1" 5).store.rows,
          m.id = "1" ∧ m.deletedAt = some ev.deletedAt)
      ∧ (∀ m ∈ (deleteMessage ⟨[⟨"1", "hi", 0, none⟩], 2⟩ "1" 5).store.rows,
          m.id = "1" → m.deletedAt = some ev.deletedAt) :=
  ⟨rfl, deleteMessage_effects_order ⟨[⟨"1", "hi", 0, none⟩], 2⟩ "1" 5 rfl⟩

/-- C3: over any serialized trace of create and delete requests from the
empty store with monotone request times (two racing deletes of one id are
serialized by the store, §5), `deleted_at` is never assigned below
`created_at`; and once a row is soft-deleted at some point of the trace,
the row — including its `deleted_at` value — is literally unchanged by the
rest of the trace: `deleted_at` is set at most once, never cleared, never
re-assigned. -/
theorem deletedAt_set_once_and_ge_createdAt (ops pre post : List Op)
    (hsplit : ops = pre ++ post)
    (hmono : List.Chain' (· ≤ ·) (ops.map Op.time)) :
    (∀ m ∈ (runOps Store.empty ops).rows, ∀ t, m.deletedAt = some t
        → m.createdAt ≤ t)
    ∧ (∀ (i : Nat) (m : Message) (t : Nat),
        (runOps Store.empty pre).rows[i]? = some m → m.deletedAt = some t
        → (runOps Store.empty ops).rows[i]? = some m) := by
  constructor
  · have h0 : TimeOk 0 Store.empty := by
      intro m hm
      exact absurd hm (by simp [Store.empty])
    have hchain : List.Chain' (· ≤ ·) (0 :: ops.map Op.time) := by
      rw [List.chain'_cons']
      exact ⟨fun y _ => Nat.zero_le y, hmono⟩
    obtain ⟨b, hb⟩ := TimeOk_runOps ops 0 Store.empty h0 hchain
    intro m hm t ht
    exact ((hb m hm).2 t ht).1
  · intro i m t hget hdel
    have hpreinv : IdInv (runOps Store.empty pre) :=
      IdInv_runOps _ pre IdInv_empty
    have hsplitrun : runOps Store.empty ops
        = runOps (runOps Store.empty pre) post := by
      rw [hsplit]
      unfold runOps
      rw [List.foldl_append]
    rw [hsplitrun]
    exact row_stable_runOps _ post i m t hpreinv hget hdel

/-- C3 witness: create a row at time 1, delete it at time 2 (prefix), then
retry the delete at time 3 (rest of the trace); the soft-deleted row at
index 0 still carries `deleted_at = 2` at the end, and its `deleted_at` is
not below its `created_at`. -/
theorem deletedAt_set_once_and_ge_createdAt_witness :
    List.Chain' (· ≤ ·)
      (([Op.create 4 (some ⟨"", "a", 0, none⟩) 1, Op.delete "1" 2,
          Op.delete "1" 3] : List Op).map Op.time)
    ∧ ((∀ m ∈ (runOps Store.empty
          [Op.create 4 (some ⟨"", "a", 0, none⟩) 1, Op.delete "1" 2,
            Op.delete "1" 3]).rows,
        ∀ t, m.deletedAt = some t → m.createdAt ≤ t)
      ∧ (∀ (i : Nat) (m : Message) (t : Nat),
          (runOps Store.empty
            [Op.create 4 (some ⟨"", "a", 0, none⟩) 1, Op.delete "1" 2]).rows[i]?
            = some m
          → m.deletedAt = some t
          → (runOps Store.empty
              [Op.create 4 (some ⟨"", "a", 0, none⟩) 1, Op.delete "1" 2,
                Op.delete "1" 3]).rows[i]? = some m)) :=
  ⟨by simp [Op.time, List.chain'_cons],
    deletedAt_set_once_and_ge_createdAt
      [Op.create 4 (some ⟨"", "a", 0, none⟩) 1, Op.delete "1" 2, Op.delete "1" 3]
      [Op.create 4 (some ⟨"", "a", 0, none⟩) 1, Op.delete "1" 2]
      [Op.delete "1" 3] rfl (by simp [Op.time, List.chain'_cons])⟩

end Fuwapachi
